import Mathlib

/-
  Verification development for the timelapse daemon (src/src/timelapse.py).

  The embedding models, faithfully to the Python source:
  - frame filenames produced by the format f-string with the 06d pattern
    (decimal digits, zero-padded on the left to a minimum width of 6);
  - the per-day frame store (a directory as an association list of
    filename/content pairs; cv2.imwrite creates or overwrites);
  - the daemon state and its capture loop (TimelapseDaemon.run), including
    the day-rollover block and the polling inter-capture wait;
  - the ffmpeg helpers concat_videos_fast and merge_daily_into_master over
    an explicit filesystem state, with an oracle deciding which subprocess
    calls succeed;
  - the Telegram helper send_file_telegram and the finalizer job body of
    finalize_day_async, with oracles for the fallible external calls;
  - the top-level __main__ wiring (daemon thread plus optional polling app).

  Dates are modelled as natural numbers (one per calendar day); time is
  discrete with the 1-second sleep of the source as one tick.
-/

namespace Timelapse

/-! ## Decimal digits and frame filenames -/

/-- Little-endian decimal digits of n, computed with an explicit fuel
argument so that the recursion is structural.  For n = 0 the list is empty
(the zero padding below still yields the string 000000, matching the
format output of Python).  With fuel at least n the result is the exact
decimal digit list of n. -/
def digitsLE : Nat → Nat → List Nat
  | 0, _ => []
  | fuel + 1, n => if n = 0 then [] else n % 10 :: digitsLE fuel (n / 10)

/-- Big-endian decimal digits of n (most significant first), as produced
by Python's repr of a nonnegative int. -/
def decDigits (n : Nat) : List Nat := (digitsLE n n).reverse

/-- Value of a little-endian digit list. -/
def ofLE : List Nat → Nat
  | [] => 0
  | d :: ds => d + 10 * ofLE ds

/-- Value of a big-endian digit list. -/
def valBE : List Nat → Nat
  | [] => 0
  | d :: ds => d * 10 ^ ds.length + valBE ds

/-- The digit list written by the format pattern 06d for n: the decimal
digits of n, left-padded with zeros to a minimum width of 6.  Numbers with
more than six digits are not truncated, exactly as in Python. -/
def pad6digits (n : Nat) : List Nat :=
  List.replicate (6 - (decDigits n).length) 0 ++ decDigits n

/-- Digit to character, as in the decimal repr. -/
def digitChar : Nat → Char
  | 0 => '0'
  | 1 => '1'
  | 2 => '2'
  | 3 => '3'
  | 4 => '4'
  | 5 => '5'
  | 6 => '6'
  | 7 => '7'
  | 8 => '8'
  | 9 => '9'
  | _ => '*'

/-- The characters of the extension ".jpg". -/
def jpgChars : List Char := ['.', 'j', 'p', 'g']

/-- Characters of the frame filename for a sequence number, as written by
capture_frame: the 06d-formatted number followed by ".jpg". -/
def frameFilenameChars (n : Nat) : List Char :=
  (pad6digits n).map digitChar ++ jpgChars

/-- The frame filename as a string. -/
def frameFilenameStr (n : Nat) : String := String.mk (frameFilenameChars n)

/-! ## Lexicographic order on names -/

/-- Lexicographic strict order on digit lists. -/
def lexLtB : List Nat → List Nat → Bool
  | [], [] => false
  | [], _ :: _ => true
  | _ :: _, [] => false
  | a :: s, b :: t => if a < b then true else if b < a then false else lexLtB s t

/-- Lexicographic strict order on character lists (codepoint order). -/
def lexLtC : List Char → List Char → Bool
  | [], [] => false
  | [], _ :: _ => true
  | _ :: _, [] => false
  | a :: s, b :: t => if a < b then true else if b < a then false else lexLtC s t

/-- Lexicographic strict order on strings. -/
def strLexLt (s t : String) : Bool := lexLtC s.data t.data

/-! ## Frame store: a per-day directory -/

/-- A directory: filenames with their stored content (a content id stands
for the image bytes). -/
abbrev Dir := List (String × Nat)

/-- Create-or-overwrite write, the semantics of cv2.imwrite on a path:
replaces the entry when the filename exists, appends it otherwise. -/
def writeFile : Dir → String → Nat → Dir
  | [], n, c => [(n, c)]
  | e :: d, n, c => if e.1 = n then (n, c) :: d else e :: writeFile d n c

/-- Read a file from a directory. -/
def lookupFile : Dir → String → Option Nat
  | [], _ => none
  | e :: d, n => if e.1 = n then some e.2 else lookupFile d n

/-! ## Daemon state and capture loop -/

/-- Outcome oracle of one capture-and-store cycle: camRet is the ret flag
of cap.read(); frame is the frame content read; writeOk says whether
cv2.imwrite succeeds in writing the file (its Boolean return value is not
inspected by the source). -/
structure CycleOutcome where
  camRet : Bool
  frame : Nat
  writeOk : Bool
deriving DecidableEq

/-- The daemon state of TimelapseDaemon, together with the filesystem of
per-day image directories and the log of finalizer dispatches.  Directory
ids coincide with dates since current_dir is always IMAGES_DIR/<date>.
mkdir with exist_ok is a no-op here because every date already maps to a
(possibly empty) directory.  finalized records, in order, each
finalize_day_async call as the pair (day, directory id). -/
structure RunState where
  seq : Nat
  currentDay : Nat
  currentDir : Nat
  dirs : Nat → Dir
  finalized : List (Nat × Nat)

/-- Pointwise update of the directory map. -/
def setDir (dirs : Nat → Dir) (k : Nat) (d : Dir) : Nat → Dir :=
  fun j => if j = k then d else dirs j

/-- TimelapseDaemon.capture_frame: if cap.read() fails, log and return
(sequence number not advanced); otherwise write the frame under the
06d-formatted filename and increment seq.  The source increments seq
whether or not the imwrite call stored the file. -/
def capture_frame (st : RunState) (o : CycleOutcome) : RunState :=
  if o.camRet then
    { st with
      dirs := setDir st.dirs st.currentDir
        (if o.writeOk then
          writeFile (st.dirs st.currentDir) (frameFilenameStr st.seq) o.frame
        else st.dirs st.currentDir)
      seq := st.seq + 1 }
  else st

/-- One iteration of the while loop in TimelapseDaemon.run, given the
wall-clock date of this iteration: on a date change, dispatch the current
bucket to finalize_day_async, then swap in the fresh bucket (new
directory, seq reset to 1); then attempt one capture. -/
def loopIter (st : RunState) (today : Nat) (o : CycleOutcome) : RunState :=
  capture_frame
    (if today ≠ st.currentDay then
      { st with
        finalized := st.finalized ++ [(st.currentDay, st.currentDir)]
        currentDay := today
        currentDir := today
        seq := 1 }
    else st) o

/-- Iterated loop body over a trace of (date, cycle outcome) pairs. -/
def runLoop : RunState → List (Nat × CycleOutcome) → RunState
  | st, [] => st
  | st, p :: tr => runLoop (loopIter st p.1 p.2) tr

/-- Iterated capture cycles within one day (no rollover checks between
them). -/
def runCaptures : RunState → List CycleOutcome → RunState
  | st, [] => st
  | st, o :: os => runCaptures (capture_frame st o) os

/-- TimelapseDaemon's constructor state: seq starts at 1 and the current
day directory is ensured, with the given pre-existing filesystem left
untouched (mkdir uses exist_ok and the constructor never lists the
directory). -/
def initStateWith (day : Nat) (dirs : Nat → Dir) : RunState :=
  { seq := 1, currentDay := day, currentDir := day, dirs := dirs, finalized := [] }

/-- Constructor state over an empty filesystem. -/
def initState (day : Nat) : RunState := initStateWith day (fun _ => [])

/-- The entries appended to a fresh bucket by a run of successful
captures starting at sequence number s. -/
def entriesFrom : Nat → List CycleOutcome → List (String × Nat)
  | _, [] => []
  | s, o :: os => (frameFilenameStr s, o.frame) :: entriesFrom (s + 1) os

/-! ## Filesystem and the ffmpeg merge helpers -/

/-- A flat filesystem: paths to optional byte contents. -/
abbrev FS := String → Option (List Nat)

/-- Write (create or truncate-and-write) a path. -/
def fsWrite (fs : FS) (p : String) (c : List Nat) : FS :=
  fun q => if q = p then some c else fs q

/-- os.remove. -/
def fsRemove (fs : FS) (p : String) : FS :=
  fun q => if q = p then none else fs q

/-- os.replace: atomically rename src onto dst. -/
def osReplace (fs : FS) (src dst : String) : FS :=
  fun q => if q = dst then fs src else if q = src then none else fs q

/-- Characters of the stem of a path name: everything before the last
dot, or the whole name when there is no dot — the behaviour of pathlib
with_suffix for the simple names this program builds. -/
def stemChars (cs : List Char) : List Char :=
  match cs.reverse.dropWhile (fun c => c ≠ '.') with
  | [] => cs
  | _ :: rest => rest.reverse

/-- pathlib's with_suffix: replace the extension of the name. -/
def withSuffix (s : String) (suf : String) : String :=
  String.mk (stemChars s.data ++ suf.data)

/-- A small concrete filesystem used to instantiate the merge theorems. -/
def sampleFS : FS := fun q =>
  if q = "videos/master.mp4" then some [1, 2]
  else if q = "videos/2024-06-01.mp4" then some [3] else none

/-- Result oracle of one ffmpeg subprocess call: whether it exits with
status zero, and the bytes it leaves at its output path (possibly a
partial file when it fails). -/
structure StepResult where
  ok : Bool
  out : List Nat
deriving DecidableEq

/-- Oracle for one concat_videos_fast call: one StepResult per input
video (the mpegts conversion) and one for the final concat invocation. -/
structure ConcatOracle where
  tsSteps : List StepResult
  concatStep : StepResult
deriving DecidableEq

/-- The mpegts conversion loop of concat_videos_fast: each input video v
is converted into v with suffix ".ts"; a successful conversion is
appended to the tracked ts_files list; a failed one raises (check=True),
leaving its partial output untracked.  Returns (tracked ts files, the
filesystem, whether the loop completed). -/
def runTsSteps : FS → List (String × StepResult) → List String × FS × Bool
  | fs, [] => ([], fs, true)
  | fs, (v, r) :: rest =>
    if r.ok then
      let res := runTsSteps (fsWrite fs (withSuffix v ".ts") r.out) rest
      (withSuffix v ".ts" :: res.1, res.2.1, res.2.2)
    else ([], fsWrite fs (withSuffix v ".ts") r.out, false)

/-- concat_videos_fast: convert every input to mpegts, run the concat
invocation writing outpath, and in a finally block remove the tracked ts
files.  First component: whether the call returned without raising. -/
def concat_videos_fast (fs : FS) (videos : List String) (outpath : String)
    (o : ConcatOracle) : Bool × FS :=
  ((if (runTsSteps fs (videos.zip o.tsSteps)).2.2 then o.concatStep.ok else false),
    ((runTsSteps fs (videos.zip o.tsSteps)).1).foldl fsRemove
      (if (runTsSteps fs (videos.zip o.tsSteps)).2.2 then
        fsWrite (runTsSteps fs (videos.zip o.tsSteps)).2.1 outpath o.concatStep.out
      else (runTsSteps fs (videos.zip o.tsSteps)).2.1))

/-- merge_daily_into_master: when the master is absent, cp the daily
video onto it (cpOk is the oracle for that subprocess); otherwise
concatenate master and the daily video into the temporary path given by
with_suffix ".new.mp4" and, only if the concatenation succeeded, replace
master atomically with os.replace.  First component: whether the call
returned without raising. -/
def merge_daily_into_master (fs : FS) (master dayVideo : String)
    (cpOk : Bool) (o : ConcatOracle) : Bool × FS :=
  if (fs master).isNone then
    if cpOk then (true, fsWrite fs master ((fs dayVideo).getD [])) else (false, fs)
  else
    if (concat_videos_fast fs [master, dayVideo] (withSuffix master ".new.mp4") o).1 then
      (true, osReplace (concat_videos_fast fs [master, dayVideo] (withSuffix master ".new.mp4") o).2
        (withSuffix master ".new.mp4") master)
    else
      (false, (concat_videos_fast fs [master, dayVideo] (withSuffix master ".new.mp4") o).2)

/-! ## Interleaving model of two concurrent finalizer merges

The source takes no lock: finalize_day_async starts a bare daemon thread
per rollover and merge_daily_into_master has no mutual exclusion, so the
read (the concat reading master) and the replace (os.replace onto master)
of two overlapping jobs can interleave arbitrarily.  Each job is its
read-concatenate-replace critical section collapsed to a read step (take
a snapshot of master, the concat input) and a write step (replace master
by the snapshot concatenated with the job's daily video). -/

structure MergeRace where
  master : List Nat
  snap1 : List Nat
  snap2 : List Nat
deriving DecidableEq

inductive RaceStep where
  | read1
  | write1
  | read2
  | write2
deriving DecidableEq

def raceStep (d1 d2 : List Nat) (s : MergeRace) : RaceStep → MergeRace
  | RaceStep.read1 => { s with snap1 := s.master }
  | RaceStep.write1 => { s with master := s.snap1 ++ d1 }
  | RaceStep.read2 => { s with snap2 := s.master }
  | RaceStep.write2 => { s with master := s.snap2 ++ d2 }

def runRace (d1 d2 : List Nat) (s : MergeRace) (steps : List RaceStep) : MergeRace :=
  steps.foldl (raceStep d1 d2) s

/-! ## Telegram delivery and the finalizer job -/

inductive SendResult where
  | skippedNoConfig
  | skippedTooBig
  | sent
  | transportFailed
deriving DecidableEq

/-- Log of one send_file_telegram call: its outcome, and whether the
transport call (bot.send_video) was reached at all. -/
structure SendLog where
  result : SendResult
  transportCalled : Bool
deriving DecidableEq

/-- send_file_telegram: no-op when the bot token or chat id is empty;
no-op when the file size strictly exceeds the configured ceiling (the
float comparison size/1024/1024 > MAX is exact for sizes below 2^53 and
equals sizeBytes > ceilingMB * 1048576); otherwise call the transport,
which raises on transport failure. -/
def send_file_telegram (botToken chatId : String) (sizeBytes ceilingMB : Nat)
    (transportOk : Bool) : SendLog :=
  if botToken = "" ∨ chatId = "" then
    { result := SendResult.skippedNoConfig, transportCalled := false }
  else if ceilingMB * 1048576 < sizeBytes then
    { result := SendResult.skippedTooBig, transportCalled := false }
  else if transportOk then
    { result := SendResult.sent, transportCalled := true }
  else
    { result := SendResult.transportFailed, transportCalled := true }

/-- Oracle for the fallible external calls of one finalizer job. -/
structure JobOracle where
  encodeOk : Bool
  dailyTransportOk : Bool
  mergeOk : Bool
  masterTransportOk : Bool
deriving DecidableEq

/-- What one finalizer job did. -/
structure JobLog where
  encoded : Bool
  dailySend : Option SendLog
  mergeAttempted : Bool
  merged : Bool
  masterSend : Option SendLog
  exceptionCaught : Bool
deriving DecidableEq

/-- The job body of finalize_day_async: build the daily video, send it,
merge into master, send master — sequentially inside a single try block
whose except clause catches and logs every exception.  A raise in any
step (a failed subprocess, or a transport failure in a send) aborts the
remaining steps; a skipped send (unconfigured, oversize) raises
nothing. -/
def finalize_day_job (botToken chatId : String) (ceilingMB dailySize masterSize : Nat)
    (o : JobOracle) : JobLog :=
  if o.encodeOk then
    if (send_file_telegram botToken chatId dailySize ceilingMB o.dailyTransportOk).result
        = SendResult.transportFailed then
      { encoded := true
        dailySend := some (send_file_telegram botToken chatId dailySize ceilingMB o.dailyTransportOk)
        mergeAttempted := false, merged := false, masterSend := none, exceptionCaught := true }
    else if o.mergeOk then
      { encoded := true
        dailySend := some (send_file_telegram botToken chatId dailySize ceilingMB o.dailyTransportOk)
        mergeAttempted := true, merged := true
        masterSend := some (send_file_telegram botToken chatId masterSize ceilingMB o.masterTransportOk)
        exceptionCaught :=
          decide ((send_file_telegram botToken chatId masterSize ceilingMB o.masterTransportOk).result
            = SendResult.transportFailed) }
    else
      { encoded := true
        dailySend := some (send_file_telegram botToken chatId dailySize ceilingMB o.dailyTransportOk)
        mergeAttempted := true, merged := false, masterSend := none, exceptionCaught := true }
  else
    { encoded := false, dailySend := none, mergeAttempted := false, merged := false
      masterSend := none, exceptionCaught := true }

/-! ## Startup and the top-level process -/

inductive ThreadOutcome where
  | diedStartup
  | looping
deriving DecidableEq

/-- The capture thread running TimelapseDaemon.run: open_cam is called
before the try block, sleeps the one-second grace delay, performs the
health-check read, and raises RuntimeError when it fails (cv2.VideoCapture
itself never raises, so a device that cannot be opened also surfaces as
the failed read).  The raise terminates the thread; otherwise the capture
loop runs. -/
def daemonRun (camReadOk : Bool) : ThreadOutcome :=
  if camReadOk then ThreadOutcome.looping else ThreadOutcome.diedStartup

/-- The __main__ block with --run: the daemon runs on a background
thread; with a bot token configured the main thread enters
app.run_polling(), which never returns, whatever the capture thread does;
with no token it joins the capture thread and the process ends when that
thread ends.  Result: whether the process terminates. -/
def processEnds (camReadOk : Bool) (botToken : String) : Bool :=
  if botToken = "" then
    match daemonRun camReadOk with
    | ThreadOutcome.diedStartup => true
    | ThreadOutcome.looping => false
  else false

/-! ## The inter-capture wait -/

/-- The sleep loop at the end of each run iteration: repeat up to rem
times: sleep one second, then break if the wall-clock date changed.
dateAt t is the date at t elapsed ticks; the function returns the total
ticks slept when the loop exits. -/
def waitPoll (d0 : Nat) (dateAt : Nat → Nat) : Nat → Nat → Nat
  | 0, elapsed => elapsed
  | rem + 1, elapsed =>
    if dateAt (elapsed + 1) ≠ d0 then elapsed + 1
    else waitPoll d0 dateAt rem (elapsed + 1)

/-- The whole inter-capture wait for a configured interval. -/
def interCaptureWait (interval d0 : Nat) (dateAt : Nat → Nat) : Nat :=
  waitPoll d0 dateAt interval 0

/-! ## Lemmas: decimal digits and the frame naming scheme -/

theorem ofLE_digitsLE : ∀ fuel n : Nat, n ≤ fuel → ofLE (digitsLE fuel n) = n := by
  intro fuel
  induction fuel with
  | zero =>
    intro n h
    have h0 : n = 0 := Nat.le_zero.mp h
    subst h0
    rfl
  | succ fuel ih =>
    intro n h
    by_cases h0 : n = 0
    · subst h0
      simp [digitsLE, ofLE]
    · have hlt : n / 10 < n := Nat.div_lt_self (Nat.pos_of_ne_zero h0) (by omega)
      have hdiv : n / 10 ≤ fuel := by omega
      simp only [digitsLE, if_neg h0, ofLE]
      rw [ih _ hdiv]
      omega

theorem digitsLE_lt10 : ∀ fuel n d : Nat, d ∈ digitsLE fuel n → d < 10 := by
  intro fuel
  induction fuel with
  | zero => intro n d hd; simp [digitsLE] at hd
  | succ fuel ih =>
    intro n d hd
    by_cases h0 : n = 0
    · subst h0; simp [digitsLE] at hd
    · simp only [digitsLE, if_neg h0, List.mem_cons] at hd
      rcases hd with hd | hd
      · subst hd; exact Nat.mod_lt _ (by omega)
      · exact ih _ _ hd

theorem digitsLE_len_le : ∀ fuel n k : Nat, n ≤ fuel → n < 10 ^ k →
    (digitsLE fuel n).length ≤ k := by
  intro fuel
  induction fuel with
  | zero =>
    intro n k h hk
    have h0 : n = 0 := Nat.le_zero.mp h
    subst h0
    simp [digitsLE]
  | succ fuel ih =>
    intro n k h hk
    by_cases h0 : n = 0
    · subst h0; simp [digitsLE]
    · cases k with
      | zero =>
        exfalso
        have : n < 1 := by simpa using hk
        omega
      | succ j =>
        have hlt : n / 10 < n := Nat.div_lt_self (Nat.pos_of_ne_zero h0) (by omega)
        have hdiv : n / 10 ≤ fuel := by omega
        have hdivpow : n / 10 < 10 ^ j := by
          apply (Nat.div_lt_iff_lt_mul (by omega)).mpr
          calc n < 10 ^ (j + 1) := hk
            _ = 10 ^ j * 10 := by ring
        simp only [digitsLE, if_neg h0, List.length_cons]
        have := ih _ j hdiv hdivpow
        omega

theorem valBE_lt_pow : ∀ ds : List Nat, (∀ d ∈ ds, d < 10) → valBE ds < 10 ^ ds.length := by
  intro ds
  induction ds with
  | nil => intro _; simp [valBE]
  | cons d ds ih =>
    intro h
    have hd : d < 10 := h d (by simp)
    have ih2 := ih (fun x hx => h x (by simp [hx]))
    simp only [valBE, List.length_cons]
    calc d * 10 ^ ds.length + valBE ds < d * 10 ^ ds.length + 10 ^ ds.length := by omega
      _ = (d + 1) * 10 ^ ds.length := by ring
      _ ≤ 10 * 10 ^ ds.length := Nat.mul_le_mul_right _ (by omega)
      _ = 10 ^ (ds.length + 1) := by ring

theorem valBE_append_last : ∀ (xs : List Nat) (d : Nat),
    valBE (xs ++ [d]) = 10 * valBE xs + d := by
  intro xs
  induction xs with
  | nil => intro d; simp [valBE]
  | cons x xs ih =>
    intro d
    have hlen : (xs ++ [d]).length = xs.length + 1 := by simp
    calc valBE ((x :: xs) ++ [d]) = x * 10 ^ (xs ++ [d]).length + valBE (xs ++ [d]) := rfl
      _ = x * 10 ^ (xs.length + 1) + (10 * valBE xs + d) := by rw [hlen, ih]
      _ = 10 * (x * 10 ^ xs.length + valBE xs) + d := by ring
      _ = 10 * valBE (x :: xs) + d := rfl

theorem valBE_reverse : ∀ l : List Nat, valBE l.reverse = ofLE l := by
  intro l
  induction l with
  | nil => rfl
  | cons d l ih => simp [List.reverse_cons, valBE_append_last, ih, ofLE]; ring

theorem valBE_decDigits (n : Nat) : valBE (decDigits n) = n := by
  unfold decDigits
  rw [valBE_reverse]
  exact ofLE_digitsLE n n le_rfl

theorem decDigits_lt10 (n : Nat) : ∀ d ∈ decDigits n, d < 10 := by
  intro d hd
  rw [decDigits, List.mem_reverse] at hd
  exact digitsLE_lt10 n n d hd

theorem decDigits_len_le (n k : Nat) (h : n < 10 ^ k) : (decDigits n).length ≤ k := by
  rw [decDigits, List.length_reverse]
  exact digitsLE_len_le n n k le_rfl h

theorem valBE_replicate_zero : ∀ (k : Nat) (ds : List Nat),
    valBE (List.replicate k 0 ++ ds) = valBE ds := by
  intro k
  induction k with
  | zero => intro ds; simp
  | succ k ih =>
    intro ds
    simp only [List.replicate_succ, List.cons_append, valBE]
    simp only [Nat.zero_mul, Nat.zero_add]
    exact ih ds

theorem valBE_pad6digits (n : Nat) : valBE (pad6digits n) = n := by
  unfold pad6digits
  rw [valBE_replicate_zero, valBE_decDigits]

theorem pad6digits_lt10 (n : Nat) : ∀ d ∈ pad6digits n, d < 10 := by
  intro d hd
  rw [pad6digits, List.mem_append] at hd
  rcases hd with hd | hd
  · have := List.eq_of_mem_replicate hd
    omega
  · exact decDigits_lt10 n d hd

theorem pad6digits_len (n : Nat) (h : n < 1000000) : (pad6digits n).length = 6 := by
  have h6 : n < 10 ^ 6 := by norm_num at h ⊢; omega
  have hle : (decDigits n).length ≤ 6 := decDigits_len_le n 6 h6
  simp only [pad6digits, List.length_append, List.length_replicate]
  omega

theorem pad6digits_inj {a b : Nat} (h : pad6digits a = pad6digits b) : a = b := by
  have := congrArg valBE h
  rwa [valBE_pad6digits, valBE_pad6digits] at this

/-! ## Lemmas: lexicographic order -/

theorem lexLtB_iff_val : ∀ s t : List Nat, s.length = t.length →
    (∀ d ∈ s, d < 10) → (∀ d ∈ t, d < 10) →
    (lexLtB s t = true ↔ valBE s < valBE t) := by
  intro s
  induction s with
  | nil =>
    intro t hlen _ _
    cases t with
    | nil => simp [lexLtB, valBE]
    | cons b t => simp at hlen
  | cons a s ih =>
    intro t hlen hs ht
    cases t with
    | nil => simp at hlen
    | cons b t =>
      have hlen2 : s.length = t.length := by simpa using hlen
      have ha : a < 10 := hs a (by simp)
      have hb : b < 10 := ht b (by simp)
      have hs2 : ∀ d ∈ s, d < 10 := fun d hd => hs d (by simp [hd])
      have ht2 : ∀ d ∈ t, d < 10 := fun d hd => ht d (by simp [hd])
      have hvs : valBE s < 10 ^ s.length := valBE_lt_pow s hs2
      have hvt : valBE t < 10 ^ t.length := valBE_lt_pow t ht2
      show (if a < b then true else if b < a then false else lexLtB s t) = true
        ↔ a * 10 ^ s.length + valBE s < b * 10 ^ t.length + valBE t
      rcases Nat.lt_trichotomy a b with h | h | h
      · rw [if_pos h]
        simp only [true_iff]
        calc a * 10 ^ s.length + valBE s < a * 10 ^ s.length + 10 ^ s.length := by omega
          _ = (a + 1) * 10 ^ s.length := by ring
          _ ≤ b * 10 ^ s.length := Nat.mul_le_mul_right _ h
          _ = b * 10 ^ t.length := by rw [hlen2]
          _ ≤ b * 10 ^ t.length + valBE t := Nat.le_add_right _ _
      · subst h
        rw [if_neg (lt_irrefl a), if_neg (lt_irrefl a)]
        rw [ih t hlen2 hs2 ht2, hlen2]
        omega
      · rw [if_neg (Nat.lt_asymm h), if_pos h]
        refine iff_of_false (by simp) (not_lt.mpr (le_of_lt ?_))
        calc b * 10 ^ t.length + valBE t < b * 10 ^ t.length + 10 ^ t.length := by omega
          _ = (b + 1) * 10 ^ t.length := by ring
          _ ≤ a * 10 ^ t.length := Nat.mul_le_mul_right _ h
          _ = a * 10 ^ s.length := by rw [hlen2]
          _ ≤ a * 10 ^ s.length + valBE s := Nat.le_add_right _ _

theorem lexLtC_irrefl : ∀ u : List Char, lexLtC u u = false := by
  intro u
  induction u with
  | nil => rfl
  | cons c u ih =>
    show (if c < c then true else if c < c then false else lexLtC u u) = false
    rw [if_neg (lt_irrefl c), if_neg (lt_irrefl c)]
    exact ih

theorem lexLtC_append_same : ∀ s t u : List Char, s.length = t.length →
    lexLtC (s ++ u) (t ++ u) = lexLtC s t := by
  intro s
  induction s with
  | nil =>
    intro t u hlen
    have ht : t = [] := List.eq_nil_of_length_eq_zero hlen.symm
    subst ht
    simp only [List.nil_append]
    rw [lexLtC_irrefl]
    rfl
  | cons a s ih =>
    intro t u hlen
    cases t with
    | nil => simp at hlen
    | cons b t =>
      have hlen2 : s.length = t.length := by simpa using hlen
      show (if a < b then true else if b < a then false else lexLtC (s ++ u) (t ++ u))
        = (if a < b then true else if b < a then false else lexLtC s t)
      rw [ih t u hlen2]

theorem digitChar_lt_iff : ∀ a : Nat, a < 10 → ∀ b : Nat, b < 10 →
    (digitChar a < digitChar b ↔ a < b) := by decide

theorem digitChar_inj10 : ∀ a : Nat, a < 10 → ∀ b : Nat, b < 10 →
    digitChar a = digitChar b → a = b := by decide

theorem lexLtC_map_digitChar : ∀ s t : List Nat, (∀ d ∈ s, d < 10) → (∀ d ∈ t, d < 10) →
    lexLtC (s.map digitChar) (t.map digitChar) = lexLtB s t := by
  intro s
  induction s with
  | nil =>
    intro t _ _
    cases t with
    | nil => rfl
    | cons b t => rfl
  | cons a s ih =>
    intro t hs ht
    cases t with
    | nil => rfl
    | cons b t =>
      have ha : a < 10 := hs a (by simp)
      have hb : b < 10 := ht b (by simp)
      have hs2 : ∀ d ∈ s, d < 10 := fun d hd => hs d (by simp [hd])
      have ht2 : ∀ d ∈ t, d < 10 := fun d hd => ht d (by simp [hd])
      show (if digitChar a < digitChar b then true
          else if digitChar b < digitChar a then false
          else lexLtC (s.map digitChar) (t.map digitChar))
        = (if a < b then true else if b < a then false else lexLtB s t)
      rcases Nat.lt_trichotomy a b with h | h | h
      · rw [if_pos ((digitChar_lt_iff a ha b hb).mpr h), if_pos h]
      · subst h
        rw [if_neg (lt_irrefl (digitChar a)), if_neg (lt_irrefl (digitChar a)),
          if_neg (lt_irrefl a), if_neg (lt_irrefl a)]
        exact ih t hs2 ht2
      · rw [if_neg, if_pos ((digitChar_lt_iff b hb a ha).mpr h),
          if_neg (Nat.lt_asymm h), if_pos h]
        intro hcon
        exact Nat.lt_asymm h ((digitChar_lt_iff a ha b hb).mp hcon)

theorem map_digitChar_inj : ∀ s t : List Nat, (∀ d ∈ s, d < 10) → (∀ d ∈ t, d < 10) →
    s.map digitChar = t.map digitChar → s = t := by
  intro s
  induction s with
  | nil =>
    intro t _ _ h
    cases t with
    | nil => rfl
    | cons b t => simp at h
  | cons a s ih =>
    intro t hs ht h
    cases t with
    | nil => simp at h
    | cons b t =>
      simp only [List.map_cons, List.cons.injEq] at h
      have ha : a < 10 := hs a (by simp)
      have hb : b < 10 := ht b (by simp)
      have hab := digitChar_inj10 a ha b hb h.1
      subst hab
      have := ih t (fun d hd => hs d (by simp [hd])) (fun d hd => ht d (by simp [hd])) h.2
      rw [this]

/-! ## Lemmas: frame filenames -/

theorem frameFilenameChars_len (n : Nat) :
    (frameFilenameChars n).length = (pad6digits n).length + 4 := by
  simp [frameFilenameChars, jpgChars]

theorem frameFilenameStr_len (n : Nat) (h : n < 1000000) :
    (frameFilenameStr n).length = 10 := by
  show (frameFilenameChars n).length = 10
  rw [frameFilenameChars_len, pad6digits_len n h]

theorem frameFilenameStr_inj {a b : Nat} (h : frameFilenameStr a = frameFilenameStr b) :
    a = b := by
  have hc : frameFilenameChars a = frameFilenameChars b := congrArg String.data h
  have hlen : ((pad6digits a).map digitChar).length = ((pad6digits b).map digitChar).length := by
    have h2 := congrArg List.length hc
    rw [frameFilenameChars_len, frameFilenameChars_len] at h2
    simp only [List.length_map]
    omega
  have hmap := (List.append_inj hc hlen).1
  exact pad6digits_inj
    (map_digitChar_inj _ _ (pad6digits_lt10 a) (pad6digits_lt10 b) hmap)

theorem frameFilenameStr_lex {a b : Nat} (ha : a < 1000000) (hb : b < 1000000)
    (hab : a < b) : strLexLt (frameFilenameStr a) (frameFilenameStr b) = true := by
  show lexLtC (frameFilenameChars a) (frameFilenameChars b) = true
  unfold frameFilenameChars
  rw [lexLtC_append_same _ _ _
    (by simp only [List.length_map]; rw [pad6digits_len a ha, pad6digits_len b hb])]
  rw [lexLtC_map_digitChar _ _ (pad6digits_lt10 a) (pad6digits_lt10 b)]
  rw [lexLtB_iff_val _ _ (by rw [pad6digits_len a ha, pad6digits_len b hb])
    (pad6digits_lt10 a) (pad6digits_lt10 b)]
  rw [valBE_pad6digits, valBE_pad6digits]
  exact hab

/-! ## Lemmas: the frame store -/

theorem lookupFile_writeFile_same : ∀ (d : Dir) (n : String) (c : Nat),
    lookupFile (writeFile d n c) n = some c := by
  intro d
  induction d with
  | nil => intro n c; simp [writeFile, lookupFile]
  | cons e d ih =>
    intro n c
    by_cases he : e.1 = n
    · simp [writeFile, he, lookupFile]
    · simp only [writeFile, if_neg he, lookupFile]
      exact ih n c

theorem lookupFile_writeFile_ne : ∀ (d : Dir) (n m : String) (c : Nat), m ≠ n →
    lookupFile (writeFile d n c) m = lookupFile d m := by
  intro d
  induction d with
  | nil =>
    intro n m c hmn
    simp [writeFile, lookupFile, if_neg (Ne.symm hmn)]
  | cons e d ih =>
    intro n m c hmn
    by_cases he : e.1 = n
    · simp only [writeFile, if_pos he, lookupFile]
      rw [if_neg (Ne.symm hmn), if_neg (by rw [he]; exact Ne.symm hmn)]
    · simp only [writeFile, if_neg he, lookupFile]
      by_cases hm : e.1 = m
      · rw [if_pos hm, if_pos hm]
      · rw [if_neg hm, if_neg hm]
        exact ih n m c hmn

theorem writeFile_not_mem : ∀ (d : Dir) (n : String) (c : Nat),
    (∀ e ∈ d, e.1 ≠ n) → writeFile d n c = d ++ [(n, c)] := by
  intro d
  induction d with
  | nil => intro n c _; rfl
  | cons e d ih =>
    intro n c h
    have he : e.1 ≠ n := h e (by simp)
    simp only [writeFile, if_neg he, List.cons_append, List.cons.injEq, true_and]
    exact ih n c (fun x hx => h x (by simp [hx]))

/-! ## Lemmas: capture cycles -/

theorem capture_frame_currentDay (st : RunState) (o : CycleOutcome) :
    (capture_frame st o).currentDay = st.currentDay := by
  unfold capture_frame
  by_cases h : o.camRet <;> simp [h]

theorem capture_frame_currentDir (st : RunState) (o : CycleOutcome) :
    (capture_frame st o).currentDir = st.currentDir := by
  unfold capture_frame
  by_cases h : o.camRet <;> simp [h]

theorem capture_frame_finalized (st : RunState) (o : CycleOutcome) :
    (capture_frame st o).finalized = st.finalized := by
  unfold capture_frame
  by_cases h : o.camRet <;> simp [h]

theorem capture_frame_dirs_ne (st : RunState) (o : CycleOutcome) (d : Nat)
    (h : d ≠ st.currentDir) : (capture_frame st o).dirs d = st.dirs d := by
  unfold capture_frame
  by_cases hc : o.camRet <;> simp [hc, setDir, if_neg h]

theorem entriesFrom_length : ∀ (os : List CycleOutcome) (s : Nat),
    (entriesFrom s os).length = os.length := by
  intro os
  induction os with
  | nil => intro s; rfl
  | cons o os ih => intro s; simp [entriesFrom, ih]

theorem entriesFrom_map_fst : ∀ (os : List CycleOutcome) (s : Nat),
    (entriesFrom s os).map Prod.fst
      = (List.range os.length).map (fun i => frameFilenameStr (s + i)) := by
  intro os
  induction os with
  | nil => intro s; rfl
  | cons o os ih =>
    intro s
    simp only [entriesFrom, List.map_cons, List.length_cons, List.range_succ_eq_map,
      List.map_map, ih (s + 1)]
    refine congrArg₂ List.cons (by rw [Nat.add_zero]) ?_
    refine List.map_congr_left ?_
    intro i _
    simp only [Function.comp]
    refine congrArg frameFilenameStr ?_
    omega

theorem runCaptures_dirs : ∀ (os : List CycleOutcome) (st : RunState),
    (∀ o ∈ os, o.camRet = true ∧ o.writeOk = true) →
    (∀ e ∈ st.dirs st.currentDir, ∃ m, m < st.seq ∧ e.1 = frameFilenameStr m) →
    (runCaptures st os).currentDir = st.currentDir
    ∧ (runCaptures st os).dirs st.currentDir = st.dirs st.currentDir ++ entriesFrom st.seq os := by
  intro os
  induction os with
  | nil =>
    intro st _ _
    exact ⟨rfl, by simp [runCaptures, entriesFrom]⟩
  | cons o os ih =>
    intro st hgood hinv
    have hc : o.camRet = true := (hgood o (by simp)).1
    have hw : o.writeOk = true := (hgood o (by simp)).2
    have hfresh : ∀ e ∈ st.dirs st.currentDir, e.1 ≠ frameFilenameStr st.seq := by
      intro e he heq
      obtain ⟨m, hm, hme⟩ := hinv e he
      rw [hme] at heq
      exact absurd (frameFilenameStr_inj heq) (by omega)
    have hwrite : writeFile (st.dirs st.currentDir) (frameFilenameStr st.seq) o.frame
        = st.dirs st.currentDir ++ [(frameFilenameStr st.seq, o.frame)] :=
      writeFile_not_mem _ _ _ hfresh
    have hst1 : capture_frame st o
        = { st with
            dirs := setDir st.dirs st.currentDir
              (st.dirs st.currentDir ++ [(frameFilenameStr st.seq, o.frame)])
            seq := st.seq + 1 } := by
      unfold capture_frame
      rw [if_pos hc, if_pos hw, hwrite]
    have hcd : (capture_frame st o).currentDir = st.currentDir := capture_frame_currentDir st o
    have hseq1 : (capture_frame st o).seq = st.seq + 1 := by rw [hst1]
    have hdirs_at : (capture_frame st o).dirs st.currentDir
        = st.dirs st.currentDir ++ [(frameFilenameStr st.seq, o.frame)] := by
      rw [hst1]
      show (if st.currentDir = st.currentDir then
          st.dirs st.currentDir ++ [(frameFilenameStr st.seq, o.frame)]
        else st.dirs st.currentDir) = _
      rw [if_pos rfl]
    have hinv1 : ∀ e ∈ (capture_frame st o).dirs (capture_frame st o).currentDir,
        ∃ m, m < (capture_frame st o).seq ∧ e.1 = frameFilenameStr m := by
      rw [hcd, hdirs_at, hseq1]
      intro e he
      rw [List.mem_append, List.mem_singleton] at he
      rcases he with he | he
      · obtain ⟨m, hm, hme⟩ := hinv e he
        exact ⟨m, by omega, hme⟩
      · subst he
        exact ⟨st.seq, by omega, rfl⟩
    have hmain := ih (capture_frame st o) (fun x hx => hgood x (by simp [hx])) hinv1
    constructor
    · show (runCaptures (capture_frame st o) os).currentDir = st.currentDir
      rw [hmain.1, hcd]
    · show (runCaptures (capture_frame st o) os).dirs st.currentDir
        = st.dirs st.currentDir ++ entriesFrom st.seq (o :: os)
      have h2 := hmain.2
      rw [hcd, hdirs_at, hseq1] at h2
      rw [h2]
      simp [entriesFrom, List.append_assoc]

theorem initState_dirs (day d : Nat) : (initState day).dirs d = [] := rfl

theorem initState_currentDir (day : Nat) : (initState day).currentDir = day := rfl

theorem initState_seq (day : Nat) : (initState day).seq = 1 := rfl

/-! ## Lemmas: the day-rollover loop -/

theorem loopIter_currentDay_of_ne (st : RunState) (t : Nat) (o : CycleOutcome)
    (h : t ≠ st.currentDay) : (loopIter st t o).currentDay = t := by
  unfold loopIter
  rw [capture_frame_currentDay, if_pos h]

theorem loopIter_currentDay_of_eq (st : RunState) (t : Nat) (o : CycleOutcome)
    (h : ¬t ≠ st.currentDay) : (loopIter st t o).currentDay = st.currentDay := by
  unfold loopIter
  rw [capture_frame_currentDay, if_neg h]

theorem loopIter_inv (st : RunState) (t : Nat) (o : CycleOutcome)
    (h : st.currentDir = st.currentDay) :
    (loopIter st t o).currentDir = (loopIter st t o).currentDay := by
  unfold loopIter
  rw [capture_frame_currentDay, capture_frame_currentDir]
  by_cases hr : t ≠ st.currentDay
  · rw [if_pos hr]
  · rw [if_neg hr]
    exact h

theorem loopIter_dirs_ne (st : RunState) (t : Nat) (o : CycleOutcome) (d : Nat)
    (hinv : st.currentDir = st.currentDay) (hd1 : d ≠ st.currentDay) (hd2 : d ≠ t) :
    (loopIter st t o).dirs d = st.dirs d := by
  unfold loopIter
  by_cases hr : t ≠ st.currentDay
  · rw [if_pos hr]
    rw [capture_frame_dirs_ne _ _ _ (by simpa using hd2)]
  · rw [if_neg hr]
    exact capture_frame_dirs_ne _ _ _ (by rw [hinv]; exact hd1)

theorem runLoop_frozen : ∀ (tr : List (Nat × CycleOutcome)) (st : RunState) (d : Nat),
    st.currentDir = st.currentDay → st.currentDay ≠ d → (∀ p ∈ tr, p.1 ≠ d) →
    (runLoop st tr).dirs d = st.dirs d := by
  intro tr
  induction tr with
  | nil => intro st d _ _ _; rfl
  | cons p tr ih =>
    intro st d hinv hne htr
    have hpd : p.1 ≠ d := htr p (by simp)
    have h1 : (loopIter st p.1 p.2).dirs d = st.dirs d :=
      loopIter_dirs_ne st p.1 p.2 d hinv (Ne.symm hne) (Ne.symm hpd)
    have hinv1 : (loopIter st p.1 p.2).currentDir = (loopIter st p.1 p.2).currentDay :=
      loopIter_inv st p.1 p.2 hinv
    have hne1 : (loopIter st p.1 p.2).currentDay ≠ d := by
      by_cases hr : p.1 ≠ st.currentDay
      · rw [loopIter_currentDay_of_ne st p.1 p.2 hr]
        exact hpd
      · rw [loopIter_currentDay_of_eq st p.1 p.2 hr]
        exact hne
    have := ih (loopIter st p.1 p.2) d hinv1 hne1 (fun q hq => htr q (by simp [hq]))
    show (runLoop (loopIter st p.1 p.2) tr).dirs d = st.dirs d
    rw [this, h1]

/-! ## Lemmas: the inter-capture wait -/

theorem waitPoll_first_change (d0 : Nat) (dateAt : Nat → Nat) (t : Nat)
    (hchange : dateAt t ≠ d0) (hfirst : ∀ s, s < t → dateAt s = d0) :
    ∀ rem elapsed : Nat, elapsed < t → t ≤ elapsed + rem →
    waitPoll d0 dateAt rem elapsed = t := by
  intro rem
  induction rem with
  | zero => intro e h1 h2; omega
  | succ rem ih =>
    intro e h1 h2
    by_cases he : e + 1 = t
    · unfold waitPoll
      rw [if_pos (by rw [he]; exact hchange)]
      exact he
    · have h3 : e + 1 < t := by omega
      have hd : dateAt (e + 1) = d0 := hfirst _ h3
      unfold waitPoll
      rw [if_neg (by simp [hd])]
      exact ih (e + 1) h3 (by omega)

/-! ## The claims -/

/-- Claim C4: the claim states that merges of concurrent finalizer jobs are
serialized by a mutual-exclusion section.  The source has no such section
(finalize_day_async starts a bare thread; merge_daily_into_master takes no
lock), so the read-concatenate-replace sequences of two overlapping jobs
can interleave.  This theorem evaluates the interleaving in which both
jobs read master before either replaces it: the final master equals the
initial master concatenated with day 2 only, and differs from both
serialized outcomes — day 1 is lost and the chronological-concatenation
invariant is violated. -/
theorem claim_C4_unserialized_merge_lost_update :
    (runRace [1] [2] { master := [0], snap1 := [], snap2 := [] }
        [RaceStep.read1, RaceStep.read2, RaceStep.write1, RaceStep.write2]).master = [0, 2]
    ∧ (runRace [1] [2] { master := [0], snap1 := [], snap2 := [] }
        [RaceStep.read1, RaceStep.read2, RaceStep.write1, RaceStep.write2]).master ≠ [0, 1, 2]
    ∧ (runRace [1] [2] { master := [0], snap1 := [], snap2 := [] }
        [RaceStep.read1, RaceStep.read2, RaceStep.write1, RaceStep.write2]).master ≠ [0, 2, 1] := by
  decide

/-- Claim C6: the claim states that a failed frame write surfaces as a
non-fatal StorageError, the capture is skipped, and seq is not advanced.
The source ignores the Boolean result of cv2.imwrite and increments seq
unconditionally after a successful camera read: with a failed write at
seq 1 nothing is stored yet seq becomes 2, and the next successful
capture lands at 000002.jpg, leaving a gap at 000001.jpg. -/
theorem claim_C6_write_failure_ignored :
    (capture_frame (initState 0) { camRet := true, frame := 7, writeOk := false }).seq = 2
    ∧ (capture_frame (initState 0) { camRet := true, frame := 7, writeOk := false }).dirs 0 = []
    ∧ (capture_frame (capture_frame (initState 0) { camRet := true, frame := 7, writeOk := false })
        { camRet := true, frame := 8, writeOk := true }).seq = 3
    ∧ ((capture_frame (capture_frame (initState 0) { camRet := true, frame := 7, writeOk := false })
        { camRet := true, frame := 8, writeOk := true }).dirs 0).map Prod.fst
      = [frameFilenameStr 2] := by
  decide

/-- Claim C7 counterexample: the claim states the process ends on a failed
startup health check for every configuration.  With a bot token configured
the capture thread dies but __main__ sits in app.run_polling(), so the
process does not end. -/
theorem claim_C7_counterexample :
    daemonRun false = ThreadOutcome.diedStartup ∧ processEnds false "token" = false := by
  decide

/-- Claim C7 amended: a failed device open or health-check read kills the
capture thread at startup; the process ends if and only if no bot token is
configured (main then joins the dead thread and falls through), while a
configured token keeps the process alive inside the polling loop without
any capture running. -/
theorem claim_C7_failfast_config_dependent (botToken : String) (camReadOk : Bool)
    (h : camReadOk = false) :
    daemonRun camReadOk = ThreadOutcome.diedStartup
    ∧ (processEnds camReadOk botToken = true ↔ botToken = "") := by
  subst h
  refine ⟨rfl, ?_⟩
  unfold processEnds
  by_cases hb : botToken = ""
  · rw [if_pos hb]
    exact iff_of_true rfl hb
  · rw [if_neg hb]
    exact iff_of_false (by simp) hb

theorem claim_C7_failfast_config_dependent_witness :
    (false : Bool) = false
    ∧ (daemonRun false = ThreadOutcome.diedStartup
      ∧ (processEnds false "" = true ↔ ("" : String) = "")) :=
  ⟨rfl, claim_C7_failfast_config_dependent "" false rfl⟩

/-- Claim C8: a delivery with a missing bot token or chat id, or whose
file size strictly exceeds the ceiling, never reaches the transport call
and is reported as the corresponding silent skip; the transportFailed
outcome (the non-fatal DeliveryError) can only arise when the notifier is
configured and the file is within the ceiling, after an actual transport
call. -/
theorem claim_C8_delivery_skip (botToken chatId : String) (sizeBytes ceilingMB : Nat)
    (transportOk : Bool) :
    ((send_file_telegram botToken chatId sizeBytes ceilingMB transportOk).transportCalled = false
      ↔ (botToken = "" ∨ chatId = "" ∨ ceilingMB * 1048576 < sizeBytes))
    ∧ ((botToken = "" ∨ chatId = "" ∨ ceilingMB * 1048576 < sizeBytes) →
        ((send_file_telegram botToken chatId sizeBytes ceilingMB transportOk).result
            = SendResult.skippedNoConfig
          ∨ (send_file_telegram botToken chatId sizeBytes ceilingMB transportOk).result
            = SendResult.skippedTooBig))
    ∧ ((send_file_telegram botToken chatId sizeBytes ceilingMB transportOk).result
          = SendResult.transportFailed →
        botToken ≠ "" ∧ chatId ≠ "" ∧ sizeBytes ≤ ceilingMB * 1048576
        ∧ (send_file_telegram botToken chatId sizeBytes ceilingMB transportOk).transportCalled
            = true) := by
  unfold send_file_telegram
  split_ifs with h1 h2 h3
  · exact ⟨iff_of_true rfl (Or.imp_right Or.inl h1), fun _ => Or.inl rfl,
      fun hco => nomatch hco⟩
  · exact ⟨iff_of_true rfl (Or.inr (Or.inr h2)), fun _ => Or.inr rfl,
      fun hco => nomatch hco⟩
  · have hnd : ¬(botToken = "" ∨ chatId = "" ∨ ceilingMB * 1048576 < sizeBytes) := by
      push_neg at h1 ⊢
      exact ⟨h1.1, h1.2, by omega⟩
    exact ⟨iff_of_false (by simp) hnd, fun hd => absurd hd hnd, fun hco => nomatch hco⟩
  · have hnd : ¬(botToken = "" ∨ chatId = "" ∨ ceilingMB * 1048576 < sizeBytes) := by
      push_neg at h1 ⊢
      exact ⟨h1.1, h1.2, by omega⟩
    have hcfg : botToken ≠ "" ∧ chatId ≠ "" := by push_neg at h1; exact h1
    exact ⟨iff_of_false (by simp) hnd, fun hd => absurd hd hnd,
      fun _ => ⟨hcfg.1, hcfg.2, by omega, rfl⟩⟩

theorem claim_C8_delivery_skip_witness :
    (("" : String) = "" ∨ ("chat" : String) = "" ∨ 400 * 1048576 < 5)
    ∧ ((send_file_telegram "" "chat" 5 400 true).result = SendResult.skippedNoConfig
      ∨ (send_file_telegram "" "chat" 5 400 true).result = SendResult.skippedTooBig) :=
  ⟨Or.inl rfl, (claim_C8_delivery_skip "" "chat" 5 400 true).2.1 (Or.inl rfl)⟩

/-- Claim C9: the inter-capture wait sleeps in one-second ticks and checks
the wall-clock date after every tick, so when the date first differs from
the bucket's date at tick t (with t within the configured interval), the
wait exits at exactly tick t — the finalization-dispatch latency after a
mid-sleep date change is at most one tick, not a full interval. -/
theorem claim_C9_poll_granularity (interval d0 t : Nat) (dateAt : Nat → Nat)
    (ht0 : 0 < t) (hti : t ≤ interval) (hchange : dateAt t ≠ d0)
    (hfirst : ∀ s, s < t → dateAt s = d0) :
    interCaptureWait interval d0 dateAt = t := by
  unfold interCaptureWait
  exact waitPoll_first_change d0 dateAt t hchange hfirst interval 0 ht0 (by omega)

theorem claim_C9_poll_granularity_witness :
    (0 < 3 ∧ 3 ≤ 5)
    ∧ interCaptureWait 5 0 (fun s => if 3 ≤ s then 1 else 0) = 3 :=
  ⟨by decide, claim_C9_poll_granularity 5 0 3 (fun s => if 3 ≤ s then 1 else 0)
    (by decide) (by decide) (by decide) (by decide)⟩

/-- Claim C10: the constructor initializes seq to 1 without inspecting the
existing directory for the day (for every pre-existing filesystem the
initial seq is 1), so after a restart on the same date the first
successful capture writes 000001.jpg into the existing directory,
overwriting the frame already stored there. -/
theorem claim_C10_restart_overwrites (dirs0 : Nat → Dir) (day oldContent f : Nat)
    (hexisting : lookupFile (dirs0 day) (frameFilenameStr 1) = some oldContent) :
    (initStateWith day dirs0).seq = 1
    ∧ (capture_frame (initStateWith day dirs0)
        { camRet := true, frame := f, writeOk := true }).dirs day
      = writeFile (dirs0 day) (frameFilenameStr 1) f
    ∧ lookupFile ((capture_frame (initStateWith day dirs0)
        { camRet := true, frame := f, writeOk := true }).dirs day)
        (frameFilenameStr 1)
      = some f := by
  have hdirs : (capture_frame (initStateWith day dirs0)
      { camRet := true, frame := f, writeOk := true }).dirs day
      = writeFile (dirs0 day) (frameFilenameStr 1) f := by
    show (if day = day then writeFile (dirs0 day) (frameFilenameStr 1) f else dirs0 day) = _
    rw [if_pos rfl]
  exact ⟨rfl, hdirs, by rw [hdirs]; exact lookupFile_writeFile_same _ _ _⟩

theorem claim_C10_restart_overwrites_witness :
    lookupFile ((fun d => if d = 3 then [(frameFilenameStr 1, 99), (frameFilenameStr 2, 98)]
        else ([] : Dir)) 3) (frameFilenameStr 1) = some 99
    ∧ (initStateWith 3 (fun d => if d = 3 then [(frameFilenameStr 1, 99), (frameFilenameStr 2, 98)]
        else ([] : Dir))).seq = 1 :=
  ⟨by decide, (claim_C10_restart_overwrites
    (fun d => if d = 3 then [(frameFilenameStr 1, 99), (frameFilenameStr 2, 98)] else ([] : Dir))
    3 99 7 (by decide)).1⟩

/-- Claim C1: on a loop iteration whose wall-clock date advanced past the
current bucket's date (by one day or many), the finalizer dispatch log is
extended exactly once, with the superseded bucket's day and directory;
the fresh bucket (new directory, seq reset to 1) is swapped in before the
capture of the same iteration, whose frame (when the cycle succeeds) is
written as 000001 into the new date's directory; the superseded
directory is not written by this iteration, nor by any further iterations
whose dates are at least the new date. -/
theorem claim_C1_day_rollover (st : RunState) (today : Nat) (o : CycleOutcome)
    (tr : List (Nat × CycleOutcome))
    (hinv : st.currentDir = st.currentDay)
    (hadv : st.currentDay < today)
    (htr : ∀ p ∈ tr, today ≤ p.1) :
    (loopIter st today o).finalized = st.finalized ++ [(st.currentDay, st.currentDir)]
    ∧ (loopIter st today o).currentDay = today
    ∧ (loopIter st today o).currentDir = today
    ∧ (loopIter st today o).seq = (if o.camRet = true then 2 else 1)
    ∧ (loopIter st today o).dirs today
      = (if o.camRet = true ∧ o.writeOk = true then
          writeFile (st.dirs today) (frameFilenameStr 1) o.frame
        else st.dirs today)
    ∧ (loopIter st today o).dirs st.currentDay = st.dirs st.currentDay
    ∧ (runLoop (loopIter st today o) tr).dirs st.currentDay = st.dirs st.currentDay := by
  have hold : st.currentDay ≠ today := Nat.ne_of_lt hadv
  have hne : today ≠ st.currentDay := Ne.symm hold
  have hL : loopIter st today o
      = capture_frame
        { st with
          finalized := st.finalized ++ [(st.currentDay, st.currentDir)]
          currentDay := today, currentDir := today, seq := 1 } o := by
    unfold loopIter
    rw [if_pos hne]
  have hFin : (loopIter st today o).finalized
      = st.finalized ++ [(st.currentDay, st.currentDir)] := by
    rw [hL, capture_frame_finalized]
  have hDay : (loopIter st today o).currentDay = today := by
    rw [hL, capture_frame_currentDay]
  have hDir : (loopIter st today o).currentDir = today := by
    rw [hL, capture_frame_currentDir]
  have hSeq : (loopIter st today o).seq = (if o.camRet = true then 2 else 1) := by
    rw [hL]
    cases hcam : o.camRet <;> simp [capture_frame, hcam]
  have hToday : (loopIter st today o).dirs today
      = (if o.camRet = true ∧ o.writeOk = true then
          writeFile (st.dirs today) (frameFilenameStr 1) o.frame
        else st.dirs today) := by
    rw [hL]
    cases hcam : o.camRet <;> cases hwr : o.writeOk <;>
      simp [capture_frame, hcam, hwr, setDir]
  have hOld : (loopIter st today o).dirs st.currentDay = st.dirs st.currentDay := by
    rw [hL]
    rw [capture_frame_dirs_ne _ _ _
      (show st.currentDay ≠
        ({ st with
          finalized := st.finalized ++ [(st.currentDay, st.currentDir)]
          currentDay := today, currentDir := today, seq := 1 } : RunState).currentDir
        from hold)]
  have hFreeze : (runLoop (loopIter st today o) tr).dirs st.currentDay
      = st.dirs st.currentDay := by
    have h1 := runLoop_frozen tr (loopIter st today o) st.currentDay
      (by rw [hDir, hDay]) (by rw [hDay]; exact hne)
      (fun p hp => Ne.symm (Nat.ne_of_lt (lt_of_lt_of_le hadv (htr p hp))))
    rw [h1, hOld]
  exact ⟨hFin, hDay, hDir, hSeq, hToday, hOld, hFreeze⟩

theorem claim_C1_day_rollover_witness :
    ((initState 5).currentDir = (initState 5).currentDay ∧ (initState 5).currentDay < 7)
    ∧ (loopIter (initState 5) 7 { camRet := true, frame := 42, writeOk := true }).finalized
      = (initState 5).finalized ++ [((initState 5).currentDay, (initState 5).currentDir)] :=
  ⟨⟨rfl, by decide⟩, (claim_C1_day_rollover (initState 5) 7
    { camRet := true, frame := 42, writeOk := true }
    [(7, { camRet := true, frame := 1, writeOk := true }),
      (8, { camRet := false, frame := 0, writeOk := true })]
    rfl (by decide) (by decide)).1⟩

/-- Claim C2 counterexample: the claim quantifies over every sequence of N
successful cycles, but at N = 1000000 Python's 06d formatting emits a
seventh digit: the millionth frame is stored under a name of length 11
(1000000.jpg) that sorts lexicographically before the name of frame
999999, so the store's names are neither fixed-width 6-digit nor in
lexical capture order. -/
theorem claim_C2_counterexample :
    frameFilenameStr 999999
      ∈ ((runCaptures (initState 0)
          (List.replicate 1000000 { camRet := true, frame := 0, writeOk := true })).dirs 0).map
        Prod.fst
    ∧ frameFilenameStr 1000000
      ∈ ((runCaptures (initState 0)
          (List.replicate 1000000 { camRet := true, frame := 0, writeOk := true })).dirs 0).map
        Prod.fst
    ∧ strLexLt (frameFilenameStr 1000000) (frameFilenameStr 999999) = true
    ∧ (frameFilenameStr 1000000).length = 11 := by
  have hmain := runCaptures_dirs
    (List.replicate 1000000 { camRet := true, frame := 0, writeOk := true }) (initState 0)
    (by
      intro o ho
      have := List.eq_of_mem_replicate ho
      subst this
      exact ⟨rfl, rfl⟩)
    (fun e he => absurd he (List.not_mem_nil e))
  have hdirs : (runCaptures (initState 0)
        (List.replicate 1000000 { camRet := true, frame := 0, writeOk := true })).dirs 0
      = entriesFrom 1 (List.replicate 1000000 { camRet := true, frame := 0, writeOk := true }) := by
    have h2 := hmain.2
    rw [initState_currentDir, initState_dirs, initState_seq, List.nil_append] at h2
    exact h2
  have hmap : ((runCaptures (initState 0)
        (List.replicate 1000000 { camRet := true, frame := 0, writeOk := true })).dirs 0).map
        Prod.fst
      = (List.range 1000000).map (fun i => frameFilenameStr (1 + i)) := by
    rw [hdirs, entriesFrom_map_fst, List.length_replicate]
  refine ⟨?_, ?_, by decide, by decide⟩
  · rw [hmap]
    exact List.mem_map.mpr ⟨999998, List.mem_range.mpr (by norm_num), by norm_num⟩
  · rw [hmap]
    exact List.mem_map.mpr ⟨999999, List.mem_range.mpr (by norm_num), by norm_num⟩

/-- Claim C2 amended: for every sequence of N successful capture cycles
within one day with N at most 999999 (any larger N leaves the six-digit
regime of the 06d format), the fresh bucket ends up with exactly N files
named contiguously 1 through N, each name a zero-padded 6-digit number
followed by ".jpg" (10 characters), and the lexicographic order of the
names coincides with capture order. -/
theorem claim_C2_contiguous_naming (N : Nat) (os : List CycleOutcome) (day : Nat)
    (hlen : os.length = N)
    (hgood : ∀ o ∈ os, o.camRet = true ∧ o.writeOk = true)
    (hN : N ≤ 999999) :
    ((runCaptures (initState day) os).dirs day).length = N
    ∧ ((runCaptures (initState day) os).dirs day).map Prod.fst
      = (List.range N).map (fun i => frameFilenameStr (i + 1))
    ∧ (∀ i, i < N → (pad6digits (i + 1)).length = 6
        ∧ (∀ d ∈ pad6digits (i + 1), d < 10)
        ∧ (frameFilenameStr (i + 1)).length = 10)
    ∧ (∀ i j, i < j → j < N →
        strLexLt (frameFilenameStr (i + 1)) (frameFilenameStr (j + 1)) = true) := by
  have hmain := runCaptures_dirs os (initState day) hgood
    (fun e he => absurd he (List.not_mem_nil e))
  have hdirs : (runCaptures (initState day) os).dirs day = entriesFrom 1 os := by
    have h2 := hmain.2
    rw [initState_currentDir, initState_dirs, initState_seq, List.nil_append] at h2
    exact h2
  refine ⟨?_, ?_, ?_, ?_⟩
  · rw [hdirs, entriesFrom_length, hlen]
  · rw [hdirs, entriesFrom_map_fst, hlen]
    refine List.map_congr_left ?_
    intro i _
    refine congrArg frameFilenameStr ?_
    omega
  · intro i hi
    have h6 : i + 1 < 1000000 := by omega
    exact ⟨pad6digits_len _ h6, pad6digits_lt10 _, frameFilenameStr_len _ h6⟩
  · intro i j hij hj
    exact frameFilenameStr_lex (by omega) (by omega) (by omega)

theorem claim_C2_contiguous_naming_witness :
    ([({ camRet := true, frame := 11, writeOk := true } : CycleOutcome),
        { camRet := true, frame := 22, writeOk := true }].length = 2
      ∧ 2 ≤ 999999)
    ∧ ((runCaptures (initState 0)
        [{ camRet := true, frame := 11, writeOk := true },
          { camRet := true, frame := 22, writeOk := true }]).dirs 0).length = 2 :=
  ⟨⟨rfl, by decide⟩, (claim_C2_contiguous_naming 2
    [{ camRet := true, frame := 11, writeOk := true },
      { camRet := true, frame := 22, writeOk := true }] 0 rfl (by decide) (by decide)).1⟩

/-- Claim C5 counterexample: the claim states a failed daily-video
delivery still lets the merge run.  In the source all finalizer steps
share one try block, so a transport failure in the daily send raises
past the merge: with a configured notifier, an in-ceiling file and a
failing transport, the job records the failed send, never attempts the
merge, and the exception is caught. -/
theorem claim_C5_counterexample :
    (finalize_day_job "token" "chat" 400 5 7
        { encodeOk := true, dailyTransportOk := false, mergeOk := true,
          masterTransportOk := true }).dailySend
      = some { result := SendResult.transportFailed, transportCalled := true }
    ∧ (finalize_day_job "token" "chat" 400 5 7
        { encodeOk := true, dailyTransportOk := false, mergeOk := true,
          masterTransportOk := true }).merged = false
    ∧ (finalize_day_job "token" "chat" 400 5 7
        { encodeOk := true, dailyTransportOk := false, mergeOk := true,
          masterTransportOk := true }).mergeAttempted = false
    ∧ (finalize_day_job "token" "chat" 400 5 7
        { encodeOk := true, dailyTransportOk := false, mergeOk := true,
          masterTransportOk := true }).exceptionCaught = true := by
  decide

/-- Claim C5 amended: the finalizer steps run strictly in sequence inside
one try block, so they are not independent: after a successful encode the
daily send is always attempted, a transport failure in it aborts the job
(the merge never runs, the master send never runs, the exception is
caught so the daemon is unaffected), while a non-raising daily send (sent,
or silently skipped as unconfigured or oversize) lets the merge run and
the merge outcome track the merge oracle; a merge failure cannot retract
the already-attempted daily send, it only suppresses the master send. -/
theorem claim_C5_sequential_abort (botToken chatId : String)
    (ceilingMB dailySize masterSize : Nat) (o : JobOracle) (henc : o.encodeOk = true) :
    (finalize_day_job botToken chatId ceilingMB dailySize masterSize o).dailySend
      = some (send_file_telegram botToken chatId dailySize ceilingMB o.dailyTransportOk)
    ∧ ((send_file_telegram botToken chatId dailySize ceilingMB o.dailyTransportOk).result
          = SendResult.transportFailed →
        (finalize_day_job botToken chatId ceilingMB dailySize masterSize o).merged = false
        ∧ (finalize_day_job botToken chatId ceilingMB dailySize masterSize o).mergeAttempted
            = false
        ∧ (finalize_day_job botToken chatId ceilingMB dailySize masterSize o).masterSend = none
        ∧ (finalize_day_job botToken chatId ceilingMB dailySize masterSize o).exceptionCaught
            = true)
    ∧ ((send_file_telegram botToken chatId dailySize ceilingMB o.dailyTransportOk).result
          ≠ SendResult.transportFailed →
        (finalize_day_job botToken chatId ceilingMB dailySize masterSize o).mergeAttempted = true
        ∧ (finalize_day_job botToken chatId ceilingMB dailySize masterSize o).merged = o.mergeOk)
    ∧ ((send_file_telegram botToken chatId dailySize ceilingMB o.dailyTransportOk).result
          ≠ SendResult.transportFailed → o.mergeOk = false →
        (finalize_day_job botToken chatId ceilingMB dailySize masterSize o).masterSend = none
        ∧ (finalize_day_job botToken chatId ceilingMB dailySize masterSize o).exceptionCaught
            = true) := by
  unfold finalize_day_job
  rw [if_pos henc]
  by_cases hs1 : (send_file_telegram botToken chatId dailySize ceilingMB o.dailyTransportOk).result
      = SendResult.transportFailed
  · rw [if_pos hs1]
    exact ⟨rfl, fun _ => ⟨rfl, rfl, rfl, rfl⟩, fun hne => absurd hs1 hne,
      fun hne _ => absurd hs1 hne⟩
  · rw [if_neg hs1]
    by_cases hm : o.mergeOk = true
    · rw [if_pos hm]
      refine ⟨rfl, fun hc => absurd hc hs1, fun _ => ⟨rfl, hm.symm⟩, fun _ hmf => ?_⟩
      rw [hm] at hmf
      exact absurd hmf (by simp)
    · rw [if_neg hm]
      have hmf : o.mergeOk = false := by
        cases hb : o.mergeOk
        · rfl
        · exact absurd hb hm
      exact ⟨rfl, fun hc => absurd hc hs1, fun _ => ⟨rfl, hmf.symm⟩, fun _ _ => ⟨rfl, rfl⟩⟩

theorem claim_C5_sequential_abort_witness :
    ({ encodeOk := true, dailyTransportOk := true, mergeOk := true,
        masterTransportOk := true } : JobOracle).encodeOk = true
    ∧ (finalize_day_job "token" "chat" 400 5 7
        { encodeOk := true, dailyTransportOk := true, mergeOk := true,
          masterTransportOk := true }).dailySend
      = some (send_file_telegram "token" "chat" 5 400 true) :=
  ⟨rfl, (claim_C5_sequential_abort "token" "chat" 400 5 7
    { encodeOk := true, dailyTransportOk := true, mergeOk := true,
      masterTransportOk := true } rfl).1⟩

/-- Claim C3: when the master exists and the concatenation chain of a
merge fails (any of the two mpegts conversions or the final concat
invocation), merge_daily_into_master raises without replacing the master:
every write of the attempt targets a ts temporary or the ".new.mp4"
temporary, the finally block removes only tracked ts files, and os.replace
runs only after full success — so the master's bytes after the failed
attempt equal its bytes before. -/
theorem claim_C3_merge_failure_preserves_master
    (fs : FS) (master dayVideo : String) (m : List Nat)
    (a b c : StepResult) (cpOk : Bool)
    (hm : fs master = some m)
    (h1 : withSuffix master ".ts" ≠ master)
    (h2 : withSuffix dayVideo ".ts" ≠ master)
    (h3 : withSuffix master ".new.mp4" ≠ master)
    (hfail : (merge_daily_into_master fs master dayVideo cpOk
        { tsSteps := [a, b], concatStep := c }).1 = false) :
    (merge_daily_into_master fs master dayVideo cpOk
        { tsSteps := [a, b], concatStep := c }).2 master = some m := by
  have h1s : master ≠ withSuffix master ".ts" := Ne.symm h1
  have h2s : master ≠ withSuffix dayVideo ".ts" := Ne.symm h2
  have h3s : master ≠ withSuffix master ".new.mp4" := Ne.symm h3
  have hsome : (fs master).isNone = false := by rw [hm]; rfl
  cases ha : a.ok
  · simp [merge_daily_into_master, concat_videos_fast, runTsSteps, fsWrite, fsRemove,
      osReplace, hsome, ha, h1s, h2s, h3s, hm]
  · cases hb : b.ok
    · simp [merge_daily_into_master, concat_videos_fast, runTsSteps, fsWrite, fsRemove,
        osReplace, hsome, ha, hb, h1s, h2s, h3s, hm]
    · cases hc : c.ok
      · simp [merge_daily_into_master, concat_videos_fast, runTsSteps, fsWrite, fsRemove,
          osReplace, hsome, ha, hb, hc, h1s, h2s, h3s, hm]
      · simp [merge_daily_into_master, concat_videos_fast, runTsSteps, hsome, ha, hb, hc]
          at hfail

theorem claim_C3_merge_failure_preserves_master_witness :
    (sampleFS "videos/master.mp4" = some [1, 2]
      ∧ withSuffix "videos/master.mp4" ".ts" ≠ "videos/master.mp4"
      ∧ withSuffix "videos/2024-06-01.mp4" ".ts" ≠ "videos/master.mp4"
      ∧ withSuffix "videos/master.mp4" ".new.mp4" ≠ "videos/master.mp4"
      ∧ (merge_daily_into_master sampleFS "videos/master.mp4" "videos/2024-06-01.mp4" true
          { tsSteps := [{ ok := true, out := [9] }, { ok := true, out := [8] }],
            concatStep := { ok := false, out := [7] } }).1 = false)
    ∧ (merge_daily_into_master sampleFS "videos/master.mp4" "videos/2024-06-01.mp4" true
        { tsSteps := [{ ok := true, out := [9] }, { ok := true, out := [8] }],
          concatStep := { ok := false, out := [7] } }).2 "videos/master.mp4" = some [1, 2] :=
  ⟨⟨by decide, by decide, by decide, by decide, by decide⟩,
    claim_C3_merge_failure_preserves_master sampleFS "videos/master.mp4"
      "videos/2024-06-01.mp4" [1, 2] { ok := true, out := [9] } { ok := true, out := [8] }
      { ok := false, out := [7] } true (by decide) (by decide) (by decide) (by decide)
      (by decide)⟩

end Timelapse
